import Mathlib

/-!
# Verification of the transaction storage engine

A shallow embedding, in Lean 4, of the two core source files of the
repository:

* `src/src/databases/transaction_database.cpp` — the transaction record
  engine (store / get / get_output / spend / unspend / confirm /
  unconfirm / update);
* `src/src/memory/memory_map.cpp` — the memory-mapped self-growing file
  (reserve / resize and the expansion policy).

Machine integers (`uint32_t`, `uint16_t`, `size_t`) are modelled as `Nat`
with explicit truncation `% 2^w` exactly where the C++ code performs a
narrowing store or a wrapping arithmetic operation.  The on-disk record is
modelled both structurally (a `TxRecord` held in a map from file offset to
record) and, for the byte-exact frame property of the spend writer, as a
little-endian byte list following the record layout documented at the top
of `transaction_database.cpp`.

The external UTXO output cache (`unspent_outputs`, a class outside this
repository, treated by the specification as an optional optimization out of
scope) is modelled as empty: `cache_.populate` returns false and
`cache_.remove` is a no-op on database state.
-/

/-- The five transaction states of `transaction_state.hpp` (declared, not
defined, under src). Modelled from the spec: `state (1 byte: invalid,
stored, pooled, indexed, confirmed)` (§3). -/
inductive TransactionState where
  | invalid
  | stored
  | pooled
  | indexed
  | confirmed
deriving DecidableEq

/-- An output point: a 32-byte transaction hash (abstracted to `Nat`, with
the all-zero null hash as 0) and a 4-byte output index. -/
structure OutPoint where
  hash : Nat
  index : Nat
deriving DecidableEq

/-- Modelled from the spec: a point is null (a coinbase input) when its
hash is the null hash and its index is the 4-byte maximum. -/
def OutPoint.isNull (p : OutPoint) : Bool :=
  decide (p.hash = 0) && decide (p.index = 4294967295)

/-- One serialized output of the v4 record:
`[ index_spend:1 ][ spender_height:4 ][ value:8 ][ script:varint+bytes ]`. -/
structure Output where
  indexSpend : Nat
  spenderHeight : Nat
  value : Nat
  script : List Nat
deriving DecidableEq

/-- One serialized input of the v4 record:
`[ hash:32 ][ index:2 ][ script:varint+bytes ][ sequence:4 ]`. -/
structure Input where
  previousOutput : OutPoint
  script : List Nat
  sequence : Nat
deriving DecidableEq

/-- A stored transaction record: the 11-byte mutable metadata prefix
(height, position, state, median_time_past) followed by the immutable
transaction body, per the record format comment of
`transaction_database.cpp`. -/
structure TxRecord where
  height : Nat
  position : Nat
  state : TransactionState
  medianTimePast : Nat
  outputs : List Output
  inputs : List Input
  locktime : Nat
  version : Nat
deriving DecidableEq

/-- The database state visible to the queries under verification: the
record slab addressed by file offset (`hash_table_.find(offset)`) and the
hash index (`hash_table_.find(hash)`), which resolves a transaction hash
to the offset of its record. -/
structure Database where
  records : Nat → Option TxRecord
  index : Nat → Option Nat

/-- Sentinels. Modelled from the spec (§6): `unconfirmed-position =
0xFFFF`, `not-spent-spender-height = 0xFFFFFFFF`,
`fork-height-for-pool-mode = UINTPTR_MAX`, `forks-when-unverified = 0`. -/
def notSpent : Nat := 4294967295

/-- The unconfirmed position sentinel `transaction_result::unconfirmed`
(0xFFFF). -/
def unconfirmedPos : Nat := 65535

/-- `rule_fork::unverified` (0). -/
def unverifiedForks : Nat := 0

/-- `no_time` (0), from `transaction_database.cpp`. -/
def noTime : Nat := 0

/-- `max_size_t` on the 64-bit platform the source asserts
(`static_assert(sizeof(void*) == sizeof(uint64_t))`). -/
def maxSizeT : Nat := 18446744073709551615

/-- `hash_table_.find(hash)` followed by dereferencing the found element:
resolve a hash through the index to an offset and the record stored
there. -/
def findByHash (db : Database) (h : Nat) : Option (Nat × TxRecord) :=
  match db.index h with
  | none => none
  | some off =>
    match db.records off with
    | none => none
    | some r => some (off, r)

/-- `transaction_database::get(offset)`: resolve the element directly by
raw offset. -/
def get (db : Database) (off : Nat) : Option TxRecord :=
  db.records off

/-- Overwrite the spender-height slot of output number `i` (the 4-byte
little-endian store `serial.write_4_bytes_little_endian(spender_height)`
inside the spend writer). -/
def setSpender : List Output → Nat → Nat → List Output
  | [], _, _ => []
  | o :: os, 0, v => { o with spenderHeight := v } :: os
  | o :: os, Nat.succ i, v => o :: setSpender os i v

/-- The state change performed by the spend writer: the record at offset
`off` has the spender-height slot of its output `idx` overwritten with
`v`; every other record is untouched. -/
def setSlot (db : Database) (off idx v : Nat) : Database :=
  { db with records := fun o =>
      if o = off then
        (db.records off).map fun r => { r with outputs := setSpender r.outputs idx v }
      else db.records o }

/-- `transaction_database::spend(point, spender_height)` (private).  A null
point returns true immediately (coinbase).  Otherwise the tx is located by
`point.hash()`; the metadata read yields height, state and output count;
the spend is rejected unless the record is confirmed at or below the
spender height and the output index is in range; on success the 4-byte
spender-height slot of the target output receives the low 32 bits of
`spender_height`.  The external cache eviction (`cache_.remove`) does not
touch database state. -/
def spend (db : Database) (point : OutPoint) (spenderHeight : Nat) :
    Bool × Database :=
  if point.isNull then (true, db)
  else
    match findByHash db point.hash with
    | none => (false, db)
    | some (off, r) =>
      if r.state ≠ TransactionState.confirmed ∨ r.height > spenderHeight then
        (false, db)
      else if point.index ≥ r.outputs.length then
        (false, db)
      else
        (true, setSlot db off point.index (spenderHeight % 4294967296))

/-- `transaction_database::unspend(point)` (private):
`spend(point, output::validation::not_spent)`. -/
def unspend (db : Database) (point : OutPoint) : Bool × Database :=
  spend db point notSpent

/-- `transaction_database::update(link, height, median_time_past, position,
state)` (private): locate the element by offset and overwrite the 11-byte
metadata prefix.  The narrowing casts `static_cast<uint32_t>(height)` and
`static_cast<uint16_t>(position)` and the 4-byte stores appear as explicit
truncations. -/
def update (db : Database) (link height mtp position : Nat)
    (state : TransactionState) : Bool × Database :=
  match db.records link with
  | none => (false, db)
  | some _ =>
    (true, { db with records := fun o =>
        if o = link then
          (db.records link).map fun r =>
            { r with
              height := height % 4294967296,
              position := position % 65536,
              state := state,
              medianTimePast := mtp % 4294967296 }
        else db.records o })

/-- The loop `for (const auto inpoint: result) if (!spend(inpoint, h))
return false;` — spend each previous output in order, stopping at the
first failure with the partially-updated state. -/
def spendList (db : Database) (points : List OutPoint) (sh : Nat) :
    Bool × Database :=
  match points with
  | [] => (true, db)
  | p :: ps =>
    match spend db p sh with
    | (true, db2) => spendList db2 ps sh
    | (false, db2) => (false, db2)

/-- The previous-output points of a record's inputs, in input order —
the sequence the `transaction_result` input iterator yields. -/
def inputPoints (r : TxRecord) : List OutPoint :=
  r.inputs.map Input.previousOutput

/-- `transaction_database::confirm(link, height, median_time_past,
position)`: fetch the record at `link`; spend each of its previous
outputs at `height`; then overwrite the metadata with the confirmed
state. -/
def confirm (db : Database) (link height mtp position : Nat) :
    Bool × Database :=
  match db.records link with
  | none => (false, db)
  | some r =>
    match spendList db (inputPoints r) height with
    | (false, db2) => (false, db2)
    | (true, db2) => update db2 link height mtp position TransactionState.confirmed

/-- `transaction_database::unconfirm(link)`: fetch the record at `link`;
unspend each of its previous outputs; then reset the metadata to
`(rule_fork::unverified, no_time, transaction_result::unconfirmed,
pooled)`. -/
def unconfirm (db : Database) (link : Nat) : Bool × Database :=
  match db.records link with
  | none => (false, db)
  | some r =>
    match spendList db (inputPoints r) notSpent with
    | (false, db2) => (false, db2)
    | (true, db2) =>
      update db2 link unverifiedForks noTime unconfirmedPos TransactionState.pooled

/-- The metadata populated for a previous output by `get_output`.  The
fields mirror `output_point::metadata` as used by the source: `height`,
`median_time_past`, `spent` (the three fields the function resets on
entry), `confirmed`, `coinbase`, and the deserialized output `cache`
(`none` when invalid). -/
structure PrevoutMetadata where
  height : Nat
  medianTimePast : Nat
  spent : Bool
  confirmed : Bool
  coinbase : Bool
  cache : Option Output
deriving DecidableEq

/-- The confirmation predicate computed by `get_output`:
`(state == indexed && !for_pool) || (state == confirmed && relevant)`
with `for_pool := fork_height == max_size_t` and `relevant := height <=
fork_height`. -/
def confirmedFlag (state : TransactionState) (height forkHeight : Nat) : Bool :=
  (decide (state = TransactionState.indexed) && !(decide (forkHeight = maxSizeT))) ||
  (decide (state = TransactionState.confirmed) && decide (height ≤ forkHeight))

/-- Modelled from the spec: the output-metadata spent predicate used at
step 8 of `get_output` (§4.6), `spender_height ≤ fork_height`; the
implementing `output::validation::spent` is outside src. -/
def spentAt (out : Output) (forkHeight : Nat) : Bool :=
  decide (out.spenderHeight ≤ forkHeight)

/-- `transaction_database::get_output(point, fork_height)`.  The function
resets `height`, `median_time_past` and `spent` of the caller-supplied
metadata, returns false for a null point, a missing tx, the genesis
carve-out `height == 0`, or an unsatisfied confirmation predicate outside
pool mode; otherwise it deserializes the target output (false when the
index is out of range, leaving the invalid output in `cache`) and
populates the metadata.  The external cache consult (`cache_.populate`)
is modelled as always missing. -/
def get_output (db : Database) (point : OutPoint)
    (prevout0 : PrevoutMetadata) (forkHeight : Nat) : Bool × PrevoutMetadata :=
  let prevout := { prevout0 with height := 0, medianTimePast := 0, spent := false }
  if point.isNull then (false, prevout)
  else
    match findByHash db point.hash with
    | none => (false, prevout)
    | some (_, r) =>
      if r.height = 0 then (false, prevout)
      else
        let forPool := decide (forkHeight = maxSizeT)
        let confirmed := confirmedFlag r.state r.height forkHeight
        if !forPool && !confirmed then (false, prevout)
        else
          match r.outputs.get? point.index with
          | none => (false, { prevout with cache := none })
          | some out =>
            (true, { prevout with
                cache := some out,
                confirmed := confirmed,
                coinbase := decide (r.position = 0),
                height := r.height,
                medianTimePast := r.medianTimePast,
                spent := confirmed && spentAt out forkHeight })

/-- The spender-height slot reached from a previous-output point: resolve
the point's hash through the index and read the slot of the output at the
point's index. -/
def slotAtPoint (db : Database) (p : OutPoint) : Option Nat :=
  (findByHash db p.hash).bind fun e =>
    (e.2.outputs[p.index]?).map Output.spenderHeight

/-!
## The memory-mapped file (`memory_map.cpp`)

Only the fields the growth-policy claims read are carried: `file_size_`
(the OS file size and mapping length, the capacity) and `logical_size_`
(the byte-watermark of valid content).  `truncate` (the `ftruncate` +
remap pair) is modelled as succeeding; its failure path throws and leaves
no state to observe.  All `size_t` arithmetic wraps at `2^64`, per the
64-bit static assertion at the top of the file.
-/

/-- `EXPANSION_NUMERATOR` (150). -/
def EXPANSION_NUMERATOR : Nat := 150

/-- `EXPANSION_DENOMINATOR` (100). -/
def EXPANSION_DENOMINATOR : Nat := 100

/-- The mutable size state of `memory_map`. -/
structure MemoryMap where
  fileSize : Nat
  logicalSize : Nat
deriving DecidableEq

/-- `memory_map::reserve(size, expansion)`: when `size > file_size_` the
file is truncated to `size * expansion / EXPANSION_DENOMINATOR` (a
`size_t` product, wrapping at `2^64`); in every case `logical_size_ =
size` is then assigned. -/
def MemoryMap.reserveWith (m : MemoryMap) (size expansion : Nat) : MemoryMap :=
  let m2 :=
    if size > m.fileSize then
      { m with fileSize := size * expansion % 18446744073709551616 / EXPANSION_DENOMINATOR }
    else m
  { m2 with logicalSize := size }

/-- `memory_map::reserve(size)`: `reserve(size, EXPANSION_NUMERATOR)`. -/
def MemoryMap.reserve (m : MemoryMap) (size : Nat) : MemoryMap :=
  m.reserveWith size EXPANSION_NUMERATOR

/-- `memory_map::resize(size)`: `reserve(size, EXPANSION_DENOMINATOR)`. -/
def MemoryMap.resize (m : MemoryMap) (size : Nat) : MemoryMap :=
  m.reserveWith size EXPANSION_DENOMINATOR

/-!
## Concrete states used to evaluate the theorems
-/

/-- A minimal output: flag 0, spender slot 0, value 0, empty script. -/
def outEx : Output := ⟨0, 0, 0, []⟩

/-- A genesis-style record: height 0, position 0, confirmed, one output. -/
def rGen : TxRecord := ⟨0, 0, TransactionState.confirmed, 0, [outEx], [], 0, 0⟩

/-- A database holding `rGen` at offset 0, indexed under hash 42. -/
def dbGen : Database :=
  ⟨fun o => if o = 0 then some rGen else none,
   fun h => if h = 42 then some 0 else none⟩

/-- A confirmed record at height 5, position 1, one output. -/
def rConf : TxRecord := ⟨5, 1, TransactionState.confirmed, 9, [outEx], [], 0, 0⟩

/-- A database holding `rConf` at offset 0, indexed under hash 42. -/
def dbConf : Database :=
  ⟨fun o => if o = 0 then some rConf else none,
   fun h => if h = 42 then some 0 else none⟩

/-- A pooled (not confirmed) record, one output. -/
def rPool : TxRecord := ⟨5, 1, TransactionState.pooled, 9, [outEx], [], 0, 0⟩

/-- A database holding `rPool` at offset 0, indexed under hash 42. -/
def dbPool : Database :=
  ⟨fun o => if o = 0 then some rPool else none,
   fun h => if h = 42 then some 0 else none⟩

/-- A pooled record whose single input is a null (coinbase) point. -/
def rCoinbase : TxRecord :=
  ⟨1, 65535, TransactionState.pooled, 0, [], [⟨⟨0, 4294967295⟩, [], 0⟩], 0, 0⟩

/-- A database holding only `rCoinbase` at offset 0. -/
def dbCoinbase : Database :=
  ⟨fun o => if o = 0 then some rCoinbase else none, fun _ => none⟩

/-- A default-initialized prevout metadata. -/
def metaZero : PrevoutMetadata := ⟨0, 0, false, false, false, none⟩

/-- A confirmed previous-output record at height 5 with two outputs,
stored at offset 1 under hash 42 in `dbTwo`. -/
def rPrev : TxRecord := ⟨5, 0, TransactionState.confirmed, 0, [outEx, outEx], [], 0, 0⟩

/-- A confirmed spender record at height 20 whose single input spends
output 0 of hash 42, stored at offset 0 in `dbTwo`. -/
def rSpender : TxRecord :=
  ⟨20, 2, TransactionState.confirmed, 8, [outEx], [⟨⟨42, 0⟩, [], 0⟩], 0, 0⟩

/-- A two-record database: the spender at offset 0 (hash 77) and its
previous output at offset 1 (hash 42). -/
def dbTwo : Database :=
  ⟨fun o => if o = 0 then some rSpender else if o = 1 then some rPrev else none,
   fun h => if h = 42 then some 1 else if h = 77 then some 0 else none⟩

/-- A confirmed record whose single input point carries the very hash the
index resolves to the record's own offset — a self-spend, expressible in
the record store even though no real transaction can reference its own
hash. -/
def rSelf : TxRecord :=
  ⟨5, 3, TransactionState.confirmed, 0, [outEx], [⟨⟨42, 0⟩, [], 0⟩], 0, 0⟩

/-- A database holding only `rSelf` at offset 0, indexed under hash 42. -/
def dbSelf : Database :=
  ⟨fun o => if o = 0 then some rSelf else none,
   fun h => if h = 42 then some 0 else none⟩

/-!
## Proof-layer definitions

Decision and bookkeeping functions used to state and prove the lemmas;
they are not part of the embedded code.
-/

/-- The success condition of a single `spend`: a null point always
succeeds; otherwise the resolved record must be confirmed at or below the
spender height with the output index in range. -/
def spendOk (db : Database) (p : OutPoint) (sh : Nat) : Bool :=
  p.isNull ||
    match findByHash db p.hash with
    | none => false
    | some (_, r) =>
      decide (r.state = TransactionState.confirmed) && decide (r.height ≤ sh) &&
        decide (p.index < r.outputs.length)

/-- Overwrite with `v` the spender slot of every output whose position
(counting from `j0`) satisfies the target predicate `t`. -/
def setSpendersFrom (outs : List Output) (t : Nat → Bool) (j0 v : Nat) :
    List Output :=
  match outs with
  | [] => []
  | o :: os =>
    (if t j0 then { o with spenderHeight := v } else o) ::
      setSpendersFrom os t (j0 + 1) v

/-- The positions a spend loop writes at offset `off`: output `j` is hit
when some non-null point of `ps` resolves through the index to `off` with
index `j`. -/
def hits (idxf : Nat → Option Nat) (ps : List OutPoint) (off j : Nat) : Bool :=
  ps.any fun p =>
    !p.isNull && decide (idxf p.hash = some off) && decide (p.index = j)

/-- The state produced by a successful metadata update: the record at
`link` has its 11-byte metadata prefix overwritten. -/
def updState (db : Database) (link a b c : Nat) (s : TransactionState) :
    Database :=
  { db with records := fun o =>
      if o = link then
        (db.records link).map fun r =>
          { r with
            height := a % 4294967296,
            position := c % 65536,
            state := s,
            medianTimePast := b % 4294967296 }
      else db.records o }

/-!
## Byte-level model of the record and the spend writer

The v4 record layout of `transaction_database.cpp` as little-endian
bytes, and the spend writer's serializer operations, for the byte-exact
frame property of the spender-height write.
-/

/-- `metadata_size` (4 + 2 + 1 + 4 = 11). -/
def metadataSize : Nat := 11

/-- `spend_size` (1 + 4 + 8 = 13). -/
def spendSize : Nat := 13

/-- `index_spend_size` (1). -/
def indexSpendSize : Nat := 1

/-- The `k` little-endian bytes of `v`. -/
def le : Nat → Nat → List Nat
  | 0, _ => []
  | Nat.succ k, v => v % 256 :: le k (v / 256)

/-- Modelled from the spec (§6): the compact varint encoding — one byte
below 0xfd literal; `0xfd` + 2 bytes; `0xfe` + 4 bytes; `0xff` + 8
bytes. -/
def varintEnc (n : Nat) : List Nat :=
  if n < 253 then [n]
  else if n < 65536 then 253 :: le 2 n
  else if n < 4294967296 then 254 :: le 4 n
  else 255 :: le 8 n

/-- The byte read at a position (0 past the end, as a read of
uninitialized mapped capacity). -/
def byteAt (data : List Nat) (i : Nat) : Nat := (data[i]?).getD 0

/-- A `k`-byte little-endian read at a position. -/
def readLEAt (data : List Nat) : Nat → Nat → Nat
  | _, 0 => 0
  | pos, Nat.succ k => byteAt data pos + 256 * readLEAt data (pos + 1) k

/-- `read_size_little_endian` at a position: the value and the number of
bytes consumed. -/
def readVarintAt (data : List Nat) (pos : Nat) : Nat × Nat :=
  let b := byteAt data pos
  if b < 253 then (b, 1)
  else if b = 253 then (readLEAt data (pos + 1) 2, 3)
  else if b = 254 then (readLEAt data (pos + 1) 4, 5)
  else (readLEAt data (pos + 1) 8, 9)

/-- The state byte. Modelled from the spec record table (§3), in
declaration order. -/
def stateCode : TransactionState → Nat
  | TransactionState.invalid => 0
  | TransactionState.stored => 1
  | TransactionState.pooled => 2
  | TransactionState.indexed => 3
  | TransactionState.confirmed => 4

/-- One serialized output:
`[ index_spend:1 ][ spender_height:4 ][ value:8 ][ script:varint+bytes ]`. -/
def outBytes (o : Output) : List Nat :=
  o.indexSpend % 256 ::
    (le 4 o.spenderHeight ++ (le 8 o.value ++ (varintEnc o.script.length ++ o.script)))

/-- One serialized input:
`[ hash:32 ][ index:2 ][ script:varint+bytes ][ sequence:4 ]`. -/
def inBytes (i : Input) : List Nat :=
  le 32 i.previousOutput.hash ++ (le 2 i.previousOutput.index ++
    (varintEnc i.script.length ++ (i.script ++ le 4 i.sequence)))

/-- The full record bytes: the 11-byte metadata prefix followed by the
transaction body, per the v4 record comment. -/
def recordBytes (r : TxRecord) : List Nat :=
  le 4 r.height ++ (le 2 r.position ++ (stateCode r.state ::
    (le 4 r.medianTimePast ++ (varintEnc r.outputs.length ++
      ((r.outputs.map outBytes).flatten ++ (varintEnc r.inputs.length ++
        ((r.inputs.map inBytes).flatten ++
          (varintEnc r.locktime ++ varintEnc r.version))))))))

/-- `write_4_bytes_little_endian` of a `size_t` spender height: the low
32 bits, little-endian, at the current position. -/
def write4At (data : List Nat) (pos v : Nat) : List Nat :=
  (((data.set pos (v % 256)).set (pos + 1) (v / 256 % 256)).set
    (pos + 2) (v / 65536 % 256)).set (pos + 3) (v / 16777216 % 256)

/-- The output-skipping loop of the spend writer: for each output before
the target, skip `spend_size` bytes, then read the script-length varint
and skip the script. -/
def skipOutputsPos (data : List Nat) : Nat → Nat → Nat
  | pos, 0 => pos
  | pos, Nat.succ k =>
    skipOutputsPos data
      (pos + spendSize + (readVarintAt data (pos + spendSize)).2 +
        (readVarintAt data (pos + spendSize)).1) k

/-- The spend writer of `transaction_database::spend` as byte operations:
skip the metadata, read (and discard) the output-count varint, skip
`idx` outputs, skip the index-spend flag, and write the 4-byte
little-endian spender height. -/
def spendWrite (data : List Nat) (idx sh : Nat) : List Nat :=
  write4At data
    (skipOutputsPos data
      (metadataSize + (readVarintAt data metadataSize).2) idx +
        indexSpendSize)
    (sh % 4294967296)

/-- The length of one serialized output. -/
def outLen (o : Output) : Nat := (outBytes o).length

/-- The byte position of the 4-byte spender slot of output `idx` within
the record. -/
def slotPos (r : TxRecord) (idx : Nat) : Nat :=
  metadataSize + (varintEnc r.outputs.length).length +
    ((r.outputs.take idx).map outLen).sum + indexSpendSize

/-- A two-output record used to evaluate the spend-writer frame
theorem: the second output's slot is past a nonempty script. -/
def rTwoOut : TxRecord :=
  ⟨7, 1, TransactionState.confirmed, 3, [⟨1, 2, 3, [9]⟩, ⟨0, 7, 8, []⟩], [], 0, 0⟩

/-!
## Theorems
-/

/-- The spend writer never creates or removes a record: the domain of the
record map is preserved. -/
theorem spend_records_isSome (db : Database) (point : OutPoint) (sh off : Nat) :
    (((spend db point sh).2).records off).isSome = (db.records off).isSome := by
  unfold spend
  split
  · rfl
  · split
    · rfl
    · next off2 r heq =>
      split
      · rfl
      · split
        · rfl
        · show ((setSlot db off2 point.index (sh % 4294967296)).records off).isSome = _
          unfold setSlot
          by_cases hoo : off = off2 <;> simp [hoo]

/-- The spend loop preserves the domain of the record map, whether or not
it succeeds. -/
theorem spendList_records_isSome (ps : List OutPoint) (sh off : Nat) :
    ∀ db : Database,
      (((spendList db ps sh).2).records off).isSome = (db.records off).isSome := by
  induction ps with
  | nil => intro db; rfl
  | cons p ps ih =>
    intro db
    have h1 : (((spend db p sh).2).records off).isSome = (db.records off).isSome :=
      spend_records_isSome db p sh off
    unfold spendList
    rcases hsp : spend db p sh with ⟨b, db2⟩
    rw [hsp] at h1
    cases b
    · exact h1
    · exact (ih db2).trans h1

/-- Reserving with any expansion leaves `logical_size_ = size` assigned
unconditionally at the end of `memory_map::reserve`. -/
theorem reserveWith_logicalSize (m : MemoryMap) (size e : Nat) :
    (m.reserveWith size e).logicalSize = size := rfl

/-- When the requested size exceeds the capacity, the file is truncated to
the wrapped product divided by the denominator. -/
theorem reserveWith_fileSize_of_lt (m : MemoryMap) (size e : Nat)
    (h : m.fileSize < size) :
    (m.reserveWith size e).fileSize =
      size * e % 18446744073709551616 / EXPANSION_DENOMINATOR := by
  simp [MemoryMap.reserveWith, h]

/-- When the requested size fits within the capacity, the capacity is
unchanged. -/
theorem reserveWith_fileSize_of_ge (m : MemoryMap) (size e : Nat)
    (h : size ≤ m.fileSize) :
    (m.reserveWith size e).fileSize = m.fileSize := by
  have h2 : ¬ (size > m.fileSize) := Nat.not_lt.mpr h
  simp [MemoryMap.reserveWith, h2]

/-- Claim C5 counterexample: `memory_map::reserve` advances
`logical_size_` to the requested size at the reserve step itself — here a
map with capacity 100 and logical size 50 reserves 80 bytes and its
logical size is immediately 80, not the unadvanced 50 the claim
requires. -/
theorem reserve_advances_logical_counterexample :
    (MemoryMap.reserve ⟨100, 50⟩ 80).logicalSize = 80 ∧ (80 : Nat) ≠ 50 := by
  constructor
  · rfl
  · decide

/-- Claim C5 (amended): `memory_map::reserve(new_logical)` — and likewise
`resize` — assigns `logical_size_ = new_logical` immediately, as part of
the reserve step itself, before any caller links the record into the
index. -/
theorem reserve_sets_logical (m : MemoryMap) (size : Nat) :
    (m.reserve size).logicalSize = size ∧ (m.resize size).logicalSize = size :=
  ⟨rfl, rfl⟩

/-- Claim C8 counterexample: for `new_logical = 2^58` the `size_t` product
`new_logical * 150` wraps modulo `2^64`, so the new capacity is not the
exact `new_logical * 150 / 100`. -/
theorem reserve_capacity_overflow_counterexample :
    (MemoryMap.reserve ⟨10, 10⟩ 288230376151711744).fileSize ≠
      288230376151711744 * 150 / 100 := by
  decide

/-- Claim C8 (amended): when `new_logical > file_capacity` the new
capacity is `new_logical * 150 / 100` for `reserve` and
`new_logical * 100 / 100` for `resize`, by exact integer arithmetic
provided the 64-bit product does not wrap; when `new_logical <=
file_capacity` the capacity is unchanged. -/
theorem reserve_capacity_formula (m : MemoryMap) (size : Nat) :
    (m.fileSize < size → size * 150 < 18446744073709551616 →
      (m.reserve size).fileSize = size * 150 / 100) ∧
    (m.fileSize < size → size * 100 < 18446744073709551616 →
      (m.resize size).fileSize = size * 100 / 100) ∧
    (size ≤ m.fileSize →
      (m.reserve size).fileSize = m.fileSize ∧
      (m.resize size).fileSize = m.fileSize) := by
  refine ⟨fun h1 h2 => ?_, fun h1 h2 => ?_, fun h1 => ⟨?_, ?_⟩⟩
  · rw [MemoryMap.reserve, reserveWith_fileSize_of_lt m size EXPANSION_NUMERATOR h1]
    rw [EXPANSION_NUMERATOR, EXPANSION_DENOMINATOR, Nat.mod_eq_of_lt h2]
  · rw [MemoryMap.resize, reserveWith_fileSize_of_lt m size EXPANSION_DENOMINATOR h1]
    rw [EXPANSION_DENOMINATOR, Nat.mod_eq_of_lt h2]
  · exact reserveWith_fileSize_of_ge m size EXPANSION_NUMERATOR h1
  · exact reserveWith_fileSize_of_ge m size EXPANSION_DENOMINATOR h1

/-- Claim C8 witness: a concrete map of capacity 10 grown to 20 gets
capacity `20 * 150 / 100 = 30` by `reserve`, and an in-capacity request
leaves capacity 30 unchanged. -/
theorem reserve_capacity_formula_witness :
    (MemoryMap.reserve ⟨10, 10⟩ 20).fileSize = 20 * 150 / 100 ∧
    (MemoryMap.resize ⟨10, 10⟩ 20).fileSize = 20 * 100 / 100 ∧
    (MemoryMap.reserve ⟨30, 5⟩ 20).fileSize = 30 := by
  refine ⟨(reserve_capacity_formula ⟨10, 10⟩ 20).1 (by decide) (by decide),
    (reserve_capacity_formula ⟨10, 10⟩ 20).2.1 (by decide) (by decide), ?_⟩
  exact ((reserve_capacity_formula ⟨30, 5⟩ 20).2.2 (by decide)).1

/-- Claim C9 counterexample: `get_output` on a null point returns false
but resets only `height`, `median_time_past` and `spent` — a
caller-supplied `confirmed = true` survives the call, so the metadata is
not all-zeroed. -/
theorem get_output_null_counterexample :
    (get_output ⟨fun _ => none, fun _ => none⟩ ⟨0, 4294967295⟩
      ⟨5, 6, true, true, true, some outEx⟩ 7).1 = false ∧
    (get_output ⟨fun _ => none, fun _ => none⟩ ⟨0, 4294967295⟩
      ⟨5, 6, true, true, true, some outEx⟩ 7).2.confirmed = true := by
  constructor <;> rfl

/-- Claim C9 (amended): `get_output` on a null (coinbase) point returns
false, having reset exactly the `height`, `median_time_past` and `spent`
fields of the prevout metadata to their zero values; the remaining fields
keep their caller-provided values (the caller is expected to default
them). -/
theorem get_output_null (db : Database) (point : OutPoint)
    (m0 : PrevoutMetadata) (fh : Nat) (hnull : point.isNull = true) :
    get_output db point m0 fh =
      (false, { m0 with height := 0, medianTimePast := 0, spent := false }) := by
  simp [get_output, hnull]

/-- Claim C9 witness: a concrete null-point lookup. -/
theorem get_output_null_witness :
    get_output dbConf ⟨0, 4294967295⟩ ⟨1, 2, true, false, true, none⟩ 3 =
      (false, ⟨0, 0, false, false, true, none⟩) :=
  get_output_null dbConf ⟨0, 4294967295⟩ ⟨1, 2, true, false, true, none⟩ 3 (by decide)

/-- Claim C7: for a non-null point whose transaction is found with stored
height 0 (the genesis coinbase carve-out), `get_output` returns false for
every fork height, whatever the record's state or position. -/
theorem get_output_genesis (db : Database) (point : OutPoint)
    (m0 : PrevoutMetadata) (fh off : Nat) (r : TxRecord)
    (hnn : point.isNull = false)
    (hf : findByHash db point.hash = some (off, r)) (hh : r.height = 0) :
    (get_output db point m0 fh).1 = false := by
  simp [get_output, hnn, hf, hh]

/-- Claim C7 witness: the confirmed height-0 record `rGen` is not
spendable at fork height 7. -/
theorem get_output_genesis_witness :
    (get_output dbGen ⟨42, 0⟩ metaZero 7).1 = false :=
  get_output_genesis dbGen ⟨42, 0⟩ metaZero 7 0 rGen (by decide) (by decide) (by decide)

/-- Claim C3: for a non-null point whose transaction is found with stored
height above 0, `get_output` computes its confirmation flag as
`(state == indexed && fork_height != max) || (state == confirmed &&
height <= fork_height)`: outside pool mode a false flag forces a false
return, and a true return reports exactly this flag in the prevout
metadata. -/
theorem get_output_confirmed_formula (db : Database) (point : OutPoint)
    (m0 : PrevoutMetadata) (fh off : Nat) (r : TxRecord)
    (hnn : point.isNull = false)
    (hf : findByHash db point.hash = some (off, r)) (hh : 0 < r.height) :
    (fh ≠ maxSizeT → confirmedFlag r.state r.height fh = false →
      (get_output db point m0 fh).1 = false) ∧
    ((get_output db point m0 fh).1 = true →
      (get_output db point m0 fh).2.confirmed = confirmedFlag r.state r.height fh) := by
  have hh0 : ¬ (r.height = 0) := by omega
  constructor
  · intro h1 h2
    simp [get_output, hnn, hf, hh0, h1, h2]
  · intro h1
    by_cases hc : (!decide (fh = maxSizeT) && !confirmedFlag r.state r.height fh) = true
    · exfalso
      simp [get_output, hnn, hf, hh0, hc] at h1
    · rcases hout : r.outputs[point.index]? with _ | out
      · exfalso
        simp [get_output, hnn, hf, hh0, hc, hout] at h1
      · simp [get_output, hnn, hf, hh0, hc, hout]

/-- Claim C3 witness: the confirmed height-5 record `rConf` at fork height
3 is not relevant, its flag is false, and `get_output` returns false. -/
theorem get_output_confirmed_formula_witness :
    (3 ≠ maxSizeT → confirmedFlag rConf.state rConf.height 3 = false →
      (get_output dbConf ⟨42, 0⟩ metaZero 3).1 = false) ∧
    ((get_output dbConf ⟨42, 0⟩ metaZero 3).1 = true →
      (get_output dbConf ⟨42, 0⟩ metaZero 3).2.confirmed =
        confirmedFlag rConf.state rConf.height 3) :=
  get_output_confirmed_formula dbConf ⟨42, 0⟩ metaZero 3 0 rConf
    (by decide) (by decide) (by decide)

/-- Claim C4: a spend of a located record is rejected — returning false
with the database state (hence every byte of the record) unchanged — when
the record is not confirmed, or its height exceeds the spender height, or
the point's output index is out of range. -/
theorem spend_reject (db : Database) (point : OutPoint) (sh off : Nat)
    (r : TxRecord) (hnn : point.isNull = false)
    (hf : findByHash db point.hash = some (off, r))
    (hrej : r.state ≠ TransactionState.confirmed ∨ r.height > sh ∨
      point.index ≥ r.outputs.length) :
    spend db point sh = (false, db) := by
  by_cases h1 : r.state ≠ TransactionState.confirmed ∨ r.height > sh
  · simp [spend, hnn, hf, h1]
  · have h3 : point.index ≥ r.outputs.length := by tauto
    simp [spend, hnn, hf, h1, h3]

/-- Claim C4 witness: spending the pooled record `rPool` fails and leaves
the database untouched. -/
theorem spend_reject_witness :
    spend dbPool ⟨42, 0⟩ 9 = (false, dbPool) :=
  spend_reject dbPool ⟨42, 0⟩ 9 0 rPool (by decide) (by decide)
    (Or.inl (by decide))

/-- Claim C1: when `confirm(link, h, mtp, p)` returns true (with the
asserted preconditions `h <= UINT32_MAX`, `p <= UINT16_MAX`, `p` not the
unconfirmed sentinel, and `mtp` a `uint32_t` value), a subsequent
`get(link)` reports state confirmed, height `h`, median time past `mtp`
and position `p`. -/
theorem confirm_get (db : Database) (link h mtp p : Nat)
    (hh : h ≤ 4294967295) (hp : p ≤ 65535) (hp2 : p ≠ unconfirmedPos)
    (hmtp : mtp ≤ 4294967295)
    (hc : (confirm db link h mtp p).1 = true) :
    ∃ r, get (confirm db link h mtp p).2 link = some r ∧
      r.state = TransactionState.confirmed ∧ r.height = h ∧
      r.medianTimePast = mtp ∧ r.position = p := by
  unfold confirm at hc ⊢
  rcases hr0 : db.records link with _ | r0
  · rw [hr0] at hc
    exact absurd hc (by simp)
  · rw [hr0] at hc
    dsimp only at hc ⊢
    rcases hsl : spendList db (inputPoints r0) h with ⟨b, db2⟩
    cases b
    · rw [hsl] at hc
      simp at hc
    · have hex : (db2.records link).isSome = true := by
        have h2 := spendList_records_isSome (inputPoints r0) h link db
        rw [hsl] at h2
        simp only [h2, hr0, Option.isSome_some]
      rcases hr2 : db2.records link with _ | r2
      · rw [hr2] at hex
        simp at hex
      · refine ⟨{ r2 with
          height := h % 4294967296, position := p % 65536,
          state := TransactionState.confirmed,
          medianTimePast := mtp % 4294967296 }, ?_, rfl, ?_, ?_, ?_⟩
        · show (update db2 link h mtp p TransactionState.confirmed).2.records link = _
          simp [update, hr2]
        · show h % 4294967296 = h
          omega
        · show mtp % 4294967296 = mtp
          omega
        · show p % 65536 = p
          omega

/-- Claim C1 witness: confirming the pooled single-coinbase-input record
`rCoinbase` at height 100, median time past 9, position 3. -/
theorem confirm_get_witness :
    ∃ r, get (confirm dbCoinbase 0 100 9 3).2 0 = some r ∧
      r.state = TransactionState.confirmed ∧ r.height = 100 ∧
      r.medianTimePast = 9 ∧ r.position = 3 :=
  confirm_get dbCoinbase 0 100 9 3 (by decide) (by decide) (by decide)
    (by decide) (by decide)

/-- Target predicates agreeing from `j0` on produce the same writes. -/
theorem setSpendersFrom_congr (outs : List Output) (t t2 : Nat → Bool) (v : Nat) :
    ∀ j0, (∀ j, j0 ≤ j → t j = t2 j) →
      setSpendersFrom outs t j0 v = setSpendersFrom outs t2 j0 v := by
  induction outs with
  | nil => intro j0 _; rfl
  | cons o os ih =>
    intro j0 hyp
    unfold setSpendersFrom
    rw [hyp j0 (le_refl j0), ih (j0 + 1) (fun j hj => hyp j (by omega))]

/-- An everywhere-false target predicate writes nothing. -/
theorem setSpendersFrom_false (outs : List Output) (t : Nat → Bool) (v : Nat) :
    ∀ j0, (∀ j, j0 ≤ j → t j = false) →
      setSpendersFrom outs t j0 v = outs := by
  induction outs with
  | nil => intro j0 _; rfl
  | cons o os ih =>
    intro j0 hyp
    unfold setSpendersFrom
    rw [hyp j0 (le_refl j0), ih (j0 + 1) (fun j hj => hyp j (by omega))]
    simp

/-- Slot writes preserve the output count. -/
theorem setSpendersFrom_length (outs : List Output) (t : Nat → Bool) (v : Nat) :
    ∀ j0, (setSpendersFrom outs t j0 v).length = outs.length := by
  induction outs with
  | nil => intro j0; rfl
  | cons o os ih =>
    intro j0
    unfold setSpendersFrom
    simp [ih (j0 + 1)]

/-- Pointwise description of a batch of slot writes. -/
theorem setSpendersFrom_get? (outs : List Output) (t : Nat → Bool) (v : Nat) :
    ∀ j0 i, (setSpendersFrom outs t j0 v)[i]? =
      (outs[i]?).map
        (fun o => if t (j0 + i) then { o with spenderHeight := v } else o) := by
  induction outs with
  | nil => intro j0 i; simp [setSpendersFrom]
  | cons o os ih =>
    intro j0 i
    cases i with
    | zero => simp [setSpendersFrom]
    | succ i =>
      have harith : j0 + 1 + i = j0 + (i + 1) := by omega
      simp [setSpendersFrom, ih (j0 + 1) i, harith]

/-- A single slot write is the batch write at a single target position. -/
theorem setSpender_eq_from (outs : List Output) (v : Nat) :
    ∀ i j0, setSpender outs i v =
      setSpendersFrom outs (fun j => decide (j = j0 + i)) j0 v := by
  induction outs with
  | nil => intro i j0; cases i <;> rfl
  | cons o os ih =>
    intro i j0
    cases i with
    | zero =>
      unfold setSpender setSpendersFrom
      have h0 : decide (j0 = j0 + 0) = true := by simp
      rw [h0, setSpendersFrom_false os _ v (j0 + 1) (fun j hj => by
        simp only [decide_eq_false_iff_not]
        omega)]
      simp
    | succ i =>
      unfold setSpender setSpendersFrom
      have h0 : decide (j0 = j0 + (i + 1)) = false := by
        simp only [decide_eq_false_iff_not]
        omega
      rw [h0, ih i (j0 + 1),
        setSpendersFrom_congr os _ _ v (j0 + 1) (fun j hj => by
          have harith : j0 + 1 + i = j0 + (i + 1) := by omega
          rw [harith])]
      simp

/-- Two batches with the same value combine into the union of their
targets. -/
theorem setSpendersFrom_union (outs : List Output) (t1 t2 : Nat → Bool) (v : Nat) :
    ∀ j0, setSpendersFrom (setSpendersFrom outs t1 j0 v) t2 j0 v =
      setSpendersFrom outs (fun j => t1 j || t2 j) j0 v := by
  induction outs with
  | nil => intro j0; rfl
  | cons o os ih =>
    intro j0
    unfold setSpendersFrom
    cases h1 : t1 j0 <;> cases h2 : t2 j0 <;>
      simp [setSpendersFrom, h1, h2, ih (j0 + 1)]

/-- A second batch at the same targets overwrites the first. -/
theorem setSpendersFrom_overwrite (outs : List Output) (t : Nat → Bool) (v w : Nat) :
    ∀ j0, setSpendersFrom (setSpendersFrom outs t j0 v) t j0 w =
      setSpendersFrom outs t j0 w := by
  induction outs with
  | nil => intro j0; rfl
  | cons o os ih =>
    intro j0
    unfold setSpendersFrom
    cases h1 : t j0 <;> simp [setSpendersFrom, h1, ih (j0 + 1)]

/-- A single slot write preserves the output count. -/
theorem setSpender_length (outs : List Output) : ∀ i v,
    (setSpender outs i v).length = outs.length := by
  induction outs with
  | nil => intro i v; cases i <;> rfl
  | cons o os ih =>
    intro i v
    cases i with
    | zero => rfl
    | succ i => simp [setSpender, ih i v]

/-- Pointwise description of a single slot write. -/
theorem setSpender_get? (outs : List Output) (v : Nat) :
    ∀ i j, (setSpender outs i v)[j]? =
      if i = j then (outs[j]?).map (fun o => { o with spenderHeight := v })
      else outs[j]? := by
  induction outs with
  | nil =>
    intro i j
    cases i <;> simp [setSpender]
  | cons o os ih =>
    intro i j
    cases i with
    | zero =>
      cases j with
      | zero => simp [setSpender]
      | succ j => simp [setSpender]
    | succ i =>
      cases j with
      | zero => simp [setSpender]
      | succ j => simp [setSpender, ih i j]

/-- A found element determines an index hit and a stored record. -/
theorem findByHash_elim (db : Database) (hsh off : Nat) (r : TxRecord)
    (h : findByHash db hsh = some (off, r)) :
    db.index hsh = some off ∧ db.records off = some r := by
  unfold findByHash at h
  cases hix : db.index hsh with
  | none =>
    rw [hix] at h
    exact absurd h (by simp)
  | some off2 =>
    rw [hix] at h
    dsimp only at h
    cases hrec : db.records off2 with
    | none =>
      rw [hrec] at h
      exact absurd h (by simp)
    | some r2 =>
      rw [hrec] at h
      injection h with h2
      obtain ⟨h3, h4⟩ := Prod.mk.injEq off2 r2 off r |>.mp h2
      subst h3
      subst h4
      exact ⟨rfl, hrec⟩

/-- Spending never changes the hash index. -/
theorem spend_index (db : Database) (q : OutPoint) (sh : Nat) :
    ((spend db q sh).2).index = db.index := by
  unfold spend
  split
  · rfl
  · split
    · rfl
    · split
      · rfl
      · split
        · rfl
        · rfl

/-- The spend loop never changes the hash index. -/
theorem spendList_index (ps : List OutPoint) (sh : Nat) :
    ∀ db : Database, ((spendList db ps sh).2).index = db.index := by
  induction ps with
  | nil => intro db; rfl
  | cons q ps ih =>
    intro db
    have h1 : ((spend db q sh).2).index = db.index := spend_index db q sh
    unfold spendList
    rcases hsp : spend db q sh with ⟨b, db1⟩
    rw [hsp] at h1
    cases b
    · exact h1
    · exact (ih db1).trans h1

/-- Metadata updates never change the hash index. -/
theorem update_index (db : Database) (link a b c : Nat) (s : TransactionState) :
    ((update db link a b c s).2).index = db.index := by
  unfold update
  cases db.records link <;> rfl

/-- A spend of a null point succeeds without touching the state. -/
theorem spend_null (db : Database) (q : OutPoint) (sh : Nat)
    (hq : q.isNull = true) : spend db q sh = (true, db) := by
  simp [spend, hq]

/-- Elimination for a successful non-null spend: the point resolved to a
confirmed in-range record and the result is exactly the slot write. -/
theorem spend_true_elim (db : Database) (q : OutPoint) (sh : Nat)
    (db1 : Database) (hq : q.isNull = false)
    (hsp : spend db q sh = (true, db1)) :
    ∃ off r, findByHash db q.hash = some (off, r) ∧
      r.state = TransactionState.confirmed ∧ r.height ≤ sh ∧
      q.index < r.outputs.length ∧
      db1 = setSlot db off q.index (sh % 4294967296) := by
  unfold spend at hsp
  simp only [hq, Bool.false_eq_true, if_false] at hsp
  rcases hfb : findByHash db q.hash with _ | e
  · rw [hfb] at hsp
    exact absurd hsp (by simp)
  · rcases e with ⟨off, r⟩
    rw [hfb] at hsp
    dsimp only at hsp
    by_cases h1 : r.state ≠ TransactionState.confirmed ∨ r.height > sh
    · rw [if_pos h1] at hsp
      exact absurd hsp (by simp)
    · rw [if_neg h1] at hsp
      by_cases h2 : q.index ≥ r.outputs.length
      · rw [if_pos h2] at hsp
        exact absurd hsp (by simp)
      · rw [if_neg h2] at hsp
        push_neg at h1 h2
        injection hsp with hb hdb
        exact ⟨off, r, rfl, h1.1, h1.2, h2, hdb.symm⟩

/-- A null point always satisfies the spend success condition. -/
theorem spendOk_null (db : Database) (p : OutPoint) (sh : Nat)
    (hq : p.isNull = true) : spendOk db p sh = true := by
  simp [spendOk, hq]

/-- The boolean returned by `spend` is exactly its success condition. -/
theorem spend_fst (db : Database) (q : OutPoint) (sh : Nat) :
    (spend db q sh).1 = spendOk db q sh := by
  unfold spend spendOk
  split
  next hq =>
    simp [hq]
  next hq =>
    have hq2 : q.isNull = false := by
      revert hq
      cases q.isNull <;> simp
    rw [hq2]
    rcases hfb : findByHash db q.hash with _ | e
    · simp
    · rcases e with ⟨off, r⟩
      dsimp only
      by_cases h1 : r.state ≠ TransactionState.confirmed ∨ r.height > sh
      · rw [if_pos h1]
        rcases h1 with h1 | h1
        · simp [h1]
        · have h3 : ¬ (r.height ≤ sh) := by omega
          simp [h3]
      · rw [if_neg h1]
        push_neg at h1
        by_cases h2 : q.index ≥ r.outputs.length
        · rw [if_pos h2]
          have h3 : ¬ (q.index < r.outputs.length) := by omega
          simp [h3]
        · rw [if_neg h2]
          have h3 : q.index < r.outputs.length := by omega
          simp [h1.1, h1.2, h3]

/-- Resolving a hash after a slot write finds the same element with only
the target slot changed. -/
theorem findByHash_setSlot (db : Database) (off idx v hsh : Nat) :
    findByHash (setSlot db off idx v) hsh =
      (findByHash db hsh).map (fun e =>
        if e.1 = off then (e.1, { e.2 with outputs := setSpender e.2.outputs idx v })
        else e) := by
  unfold findByHash setSlot
  cases hix : db.index hsh with
  | none => rfl
  | some off2 =>
    dsimp only
    by_cases ho : off2 = off
    · subst ho
      rw [if_pos rfl]
      cases hrec : db.records off2 with
      | none => rfl
      | some r => simp
    · rw [if_neg ho]
      cases hrec : db.records off2 with
      | none => rfl
      | some r => simp [ho]

/-- The spend success condition is insensitive to slot writes. -/
theorem spendOk_setSlot (db : Database) (off idx v : Nat) (p : OutPoint)
    (sh : Nat) :
    spendOk (setSlot db off idx v) p sh = spendOk db p sh := by
  unfold spendOk
  rw [findByHash_setSlot]
  rcases hfb : findByHash db p.hash with _ | e
  · rfl
  · rcases e with ⟨off2, r⟩
    by_cases ho : off2 = off <;> simp [ho, setSpender_length]

/-- The spend success condition is insensitive to any other spend. -/
theorem spendOk_spend (db : Database) (q : OutPoint) (sh0 : Nat)
    (p : OutPoint) (sh : Nat) :
    spendOk ((spend db q sh0).2) p sh = spendOk db p sh := by
  unfold spend
  split
  · rfl
  · split
    · rfl
    · split
      · rfl
      · split
        · rfl
        · exact spendOk_setSlot db _ _ _ p sh

/-- The spend success condition is insensitive to a whole spend loop. -/
theorem spendOk_spendList (ps : List OutPoint) (sh0 : Nat) (p : OutPoint)
    (sh : Nat) :
    ∀ db, spendOk ((spendList db ps sh0).2) p sh = spendOk db p sh := by
  induction ps with
  | nil => intro db; rfl
  | cons q ps ih =>
    intro db
    have h1 : spendOk ((spend db q sh0).2) p sh = spendOk db p sh :=
      spendOk_spend db q sh0 p sh
    unfold spendList
    rcases hsp : spend db q sh0 with ⟨b, db1⟩
    rw [hsp] at h1
    cases b
    · exact h1
    · exact (ih db1).trans h1

/-- The spend success condition of a point whose hash does not resolve to
the updated offset is insensitive to a metadata update. -/
theorem spendOk_update (db : Database) (link a b c : Nat)
    (s : TransactionState) (p : OutPoint) (sh : Nat)
    (hp : ¬ db.index p.hash = some link) :
    spendOk ((update db link a b c s).2) p sh = spendOk db p sh := by
  unfold update
  cases hrec : db.records link with
  | none => rfl
  | some r0 =>
    unfold spendOk findByHash
    dsimp only
    cases hix : db.index p.hash with
    | none => rfl
    | some off =>
      have ho : ¬ off = link := by
        intro hcon
        rw [hcon] at hix
        exact hp hix
      simp [ho]

/-- The spend success condition is monotone in the spender height. -/
theorem spendOk_mono (db : Database) (p : OutPoint) (sh sh2 : Nat)
    (hle : sh ≤ sh2) (h : spendOk db p sh = true) :
    spendOk db p sh2 = true := by
  unfold spendOk at h ⊢
  cases hq : p.isNull with
  | true => simp [hq]
  | false =>
    rcases hfb : findByHash db p.hash with _ | e
    · rw [hfb, hq] at h
      simp at h
    · rcases e with ⟨off, r⟩
      rw [hfb, hq] at h
      simp only [Bool.false_or] at h ⊢
      simp only [Bool.and_eq_true, decide_eq_true_eq] at h ⊢
      exact ⟨⟨h.1.1, by omega⟩, h.2⟩

/-- The boolean returned by a spend loop is the conjunction of the
individual success conditions, all evaluated on the entry state. -/
theorem spendList_fst (ps : List OutPoint) (sh : Nat) :
    ∀ db, (spendList db ps sh).1 = ps.all (fun p => spendOk db p sh) := by
  induction ps with
  | nil => intro db; rfl
  | cons q ps ih =>
    intro db
    have hb : (spend db q sh).1 = spendOk db q sh := spend_fst db q sh
    have hinv : ∀ p, spendOk ((spend db q sh).2) p sh = spendOk db p sh :=
      fun p => spendOk_spend db q sh p sh
    unfold spendList
    rcases hsp : spend db q sh with ⟨b, db1⟩
    rw [hsp] at hb hinv
    cases b
    · simp [List.all_cons, ← hb]
    · simp only [List.all_cons, ← hb, ih db1, Bool.true_and]
      have : (fun p => spendOk db1 p sh) = (fun p => spendOk db p sh) := by
        funext p
        exact hinv p
      rw [this]

/-- Characterization of a successful spend loop: every record keeps its
metadata and body, and the spender slots hit by the loop's points (through
the unchanged index) are overwritten with the truncated spender height. -/
theorem spendList_records_eq (ps : List OutPoint) (sh : Nat) :
    ∀ db db2, spendList db ps sh = (true, db2) →
      ∀ off, db2.records off = (db.records off).map
        (fun r => { r with outputs := setSpendersFrom r.outputs (hits db.index ps off) 0 (sh % 4294967296) }) := by
  induction ps with
  | nil =>
    intro db db2 hsp off
    have hdb : db = db2 := by
      unfold spendList at hsp
      injection hsp with _ h
    subst hdb
    cases hrec : db.records off with
    | none => rfl
    | some r =>
      simp only [Option.map_some']
      rw [setSpendersFrom_false r.outputs (hits db.index [] off) (sh % 4294967296) 0
        (fun j _ => rfl)]
  | cons q ps ih =>
    intro db db2 hsp off
    unfold spendList at hsp
    rcases hq : spend db q sh with ⟨b, db1⟩
    rw [hq] at hsp
    cases b
    · exact absurd hsp (by simp)
    · have hIH := ih db1 db2 hsp off
      by_cases hqn : q.isNull = true
      · have hdb1 : db1 = db := by
          have hq2 := spend_null db q sh hqn
          rw [hq2] at hq
          injection hq with _ h
          exact h.symm
        rw [hdb1] at hIH
        rw [hIH]
        cases hrec : db.records off with
        | none => rfl
        | some r =>
          simp only [Option.map_some']
          have hcongr : ∀ j, hits db.index ps off j = hits db.index (q :: ps) off j := by
            intro j
            simp [hits, hqn]
          rw [setSpendersFrom_congr r.outputs _ _ (sh % 4294967296) 0
            (fun j _ => hcongr j)]
      · have hqn2 : q.isNull = false := by
          revert hqn
          cases q.isNull <;> simp
        obtain ⟨offq, rq, hfb, hst, hht, hlt, hdb1⟩ :=
          spend_true_elim db q sh db1 hqn2 hq
        obtain ⟨hidx, hrecq⟩ := findByHash_elim db q.hash offq rq hfb
        subst hdb1
        simp only [setSlot] at hIH
        rw [hIH]
        by_cases hoo : off = offq
        · subst hoo
          rw [if_pos rfl]
          cases hrec : db.records off with
          | none => rfl
          | some r =>
            simp only [Option.map_some']
            cases r with
            | mk rh rpos rst rmtp routs rins rlk rv =>
              simp only [Option.some.injEq, TxRecord.mk.injEq, true_and, and_true]
              rw [setSpender_eq_from routs _ q.index 0, setSpendersFrom_union]
              have hcongr : ∀ j,
                  (decide (j = 0 + q.index) || hits db.index ps off j) =
                    hits db.index (q :: ps) off j := by
                intro j
                by_cases hji : j = q.index
                · subst hji
                  simp [hits, List.any_cons, hqn2, hidx]
                · have hji2 : ¬ (q.index = j) := fun hcon => hji hcon.symm
                  simp [hits, List.any_cons, hji, hji2]
              rw [setSpendersFrom_congr routs _ _ _ 0 (fun j _ => hcongr j)]
        · rw [if_neg hoo]
          cases hrec : db.records off with
          | none => rfl
          | some r =>
            simp only [Option.map_some']
            have hnotoff : ¬ (db.index q.hash = some off) := by
              rw [hidx]
              simp only [Option.some.injEq]
              exact fun hcon => hoo hcon.symm
            have hcongr : ∀ j, hits db.index ps off j = hits db.index (q :: ps) off j := by
              intro j
              simp [hits, List.any_cons, hnotoff]
            rw [setSpendersFrom_congr r.outputs _ _ (sh % 4294967296) 0
              (fun j _ => hcongr j)]

/-- After a successful spend loop, every non-null point of the loop reads
back the truncated spender height in its slot. -/
theorem spendList_slot (ps : List OutPoint) (sh : Nat) (db db2 : Database)
    (hsp : spendList db ps sh = (true, db2)) (p : OutPoint) (hmem : p ∈ ps)
    (hpn : p.isNull = false) :
    slotAtPoint db2 p = some (sh % 4294967296) := by
  have hall : (spendList db ps sh).1 = ps.all (fun x => spendOk db x sh) :=
    spendList_fst ps sh db
  rw [hsp] at hall
  have hok : spendOk db p sh = true := List.all_eq_true.mp hall.symm p hmem
  unfold spendOk at hok
  rw [hpn] at hok
  simp only [Bool.false_or] at hok
  rcases hfb : findByHash db p.hash with _ | e
  · rw [hfb] at hok
    simp at hok
  · rcases e with ⟨off, r⟩
    rw [hfb] at hok
    simp only [Bool.and_eq_true, decide_eq_true_eq] at hok
    obtain ⟨⟨hst, hht⟩, hlt⟩ := hok
    obtain ⟨hidx, hrec⟩ := findByHash_elim db p.hash off r hfb
    have hchar := spendList_records_eq ps sh db db2 hsp off
    rw [hrec] at hchar
    have hidx2 : db2.index = db.index := by
      have h3 := spendList_index ps sh db
      rw [hsp] at h3
      exact h3
    unfold slotAtPoint findByHash
    rw [hidx2, hidx]
    dsimp only
    rw [hchar]
    simp only [Option.map_some', Option.some_bind]
    rw [setSpendersFrom_get?, List.getElem?_eq_getElem hlt]
    have hT : hits db.index ps off p.index = true := by
      unfold hits
      rw [List.any_eq_true]
      refine ⟨p, hmem, ?_⟩
      simp [hpn, hidx]
    simp [hT]

/-- A metadata update leaves every spender slot unchanged. -/
theorem slotAtPoint_update (db : Database) (link a b c : Nat)
    (s : TransactionState) (p : OutPoint) :
    slotAtPoint ((update db link a b c s).2) p = slotAtPoint db p := by
  unfold update
  cases hrec : db.records link with
  | none => rfl
  | some r0 =>
    unfold slotAtPoint findByHash
    dsimp only
    cases hix : db.index p.hash with
    | none => rfl
    | some off =>
      by_cases ho : off = link
      · subst ho
        simp [hrec]
      · simp [ho]

/-- Claim C2: when `unconfirm(link)` returns true, a subsequent
`get(link)` reports state pooled, position the unconfirmed sentinel
`0xFFFF`, height the unverified-forks value 0 and median time past 0; and
the spender slot of the previous output of every non-null input of the
transaction at `link` holds the not-spent sentinel `0xFFFFFFFF` (a null
coinbase input has no previous output to revert). -/
theorem unconfirm_get (db : Database) (link : Nat)
    (hc : (unconfirm db link).1 = true) :
    (∃ r, get (unconfirm db link).2 link = some r ∧
      r.state = TransactionState.pooled ∧ r.position = unconfirmedPos ∧
      r.height = unverifiedForks ∧ r.medianTimePast = noTime) ∧
    (∀ r0, db.records link = some r0 → ∀ inp ∈ r0.inputs,
      inp.previousOutput.isNull = false →
      slotAtPoint (unconfirm db link).2 inp.previousOutput = some notSpent) := by
  unfold unconfirm at hc ⊢
  rcases hr0 : db.records link with _ | r0
  · rw [hr0] at hc
    exact absurd hc (by simp)
  · rw [hr0] at hc
    dsimp only at hc ⊢
    rcases hsl : spendList db (inputPoints r0) notSpent with ⟨b, db2⟩
    cases b
    · rw [hsl] at hc
      simp at hc
    · constructor
      · have hex : (db2.records link).isSome = true := by
          have h2 := spendList_records_isSome (inputPoints r0) notSpent link db
          rw [hsl] at h2
          simp only [h2, hr0, Option.isSome_some]
        rcases hr2 : db2.records link with _ | r2
        · rw [hr2] at hex
          simp at hex
        · refine ⟨{ r2 with
            height := unverifiedForks % 4294967296,
            position := unconfirmedPos % 65536,
            state := TransactionState.pooled,
            medianTimePast := noTime % 4294967296 }, ?_, rfl, ?_, ?_, ?_⟩
          · show (update db2 link unverifiedForks noTime unconfirmedPos
              TransactionState.pooled).2.records link = _
            simp [update, hr2]
          · show unconfirmedPos % 65536 = unconfirmedPos
            decide
          · show unverifiedForks % 4294967296 = unverifiedForks
            decide
          · show noTime % 4294967296 = noTime
            decide
      · intro r0x hr0x inp hmem hpn
        injection hr0x with hrr
        subst hrr
        have hmem2 : inp.previousOutput ∈ inputPoints r0 :=
          List.mem_map_of_mem Input.previousOutput hmem
        have hslot := spendList_slot (inputPoints r0) notSpent db db2 hsl
          inp.previousOutput hmem2 hpn
        have hns : notSpent % 4294967296 = notSpent := by decide
        rw [hns] at hslot
        show slotAtPoint (update db2 link unverifiedForks noTime unconfirmedPos
          TransactionState.pooled).2 inp.previousOutput = some notSpent
        rw [slotAtPoint_update db2 link unverifiedForks noTime unconfirmedPos
          TransactionState.pooled inp.previousOutput]
        exact hslot

/-- Claim C2 witness: unconfirming the two-record database `dbTwo` at
offset 0 reverts the spent slot of hash 42's output 0. -/
theorem unconfirm_get_witness :
    (∃ r, get (unconfirm dbTwo 0).2 0 = some r ∧
      r.state = TransactionState.pooled ∧ r.position = unconfirmedPos ∧
      r.height = unverifiedForks ∧ r.medianTimePast = noTime) ∧
    (∀ r0, dbTwo.records 0 = some r0 → ∀ inp ∈ r0.inputs,
      inp.previousOutput.isNull = false →
      slotAtPoint (unconfirm dbTwo 0).2 inp.previousOutput = some notSpent) :=
  unconfirm_get dbTwo 0 (by decide)

/-- A metadata update of an existing record succeeds and produces exactly
the metadata-overwritten state. -/
theorem update_eq_of_some (db : Database) (link a b c : Nat)
    (s : TransactionState) (r : TxRecord) (hr : db.records link = some r) :
    update db link a b c s = (true, updState db link a b c s) := by
  unfold update updState
  rw [hr]

/-- The spend success condition of a point not resolving to the updated
offset is insensitive to a metadata overwrite. -/
theorem spendOk_updState (db : Database) (link a b c : Nat)
    (s : TransactionState) (p : OutPoint) (sh : Nat)
    (hp : ¬ db.index p.hash = some link) :
    spendOk (updState db link a b c s) p sh = spendOk db p sh := by
  unfold spendOk findByHash updState
  dsimp only
  cases hix : db.index p.hash with
  | none => rfl
  | some off =>
    have ho : ¬ off = link := by
      intro hcon
      rw [hcon] at hix
      exact hp hix
    simp [ho]

/-- Databases with pointwise equal record maps and indexes are equal. -/
theorem Database.ext_maps (a b : Database)
    (hrec : ∀ o, a.records o = b.records o)
    (hidx : ∀ hsh, a.index hsh = b.index hsh) : a = b := by
  cases a with
  | mk ra ia =>
    cases b with
    | mk rb ib =>
      have h1 : ra = rb := funext hrec
      have h2 : ia = ib := funext hidx
      rw [h1, h2]

/-- The metadata overwrite leaves every other record untouched. -/
theorem updState_records_ne (db : Database) (link a b c : Nat)
    (s : TransactionState) (off : Nat) (hne : ¬ off = link) :
    (updState db link a b c s).records off = db.records off := by
  unfold updState
  dsimp only
  rw [if_neg hne]

/-- The metadata overwrite at the updated offset. -/
theorem updState_records_self (db : Database) (link a b c : Nat)
    (s : TransactionState) :
    (updState db link a b c s).records link =
      (db.records link).map (fun r =>
        { r with
          height := a % 4294967296,
          position := c % 65536,
          state := s,
          medianTimePast := b % 4294967296 }) := by
  unfold updState
  dsimp only
  rw [if_pos rfl]

/-- The metadata overwrite never changes the hash index. -/
theorem updState_index (db : Database) (link a b c : Nat)
    (s : TransactionState) :
    (updState db link a b c s).index = db.index := rfl

/-- State-level round trip: when the first `confirm` succeeds and no input
of the transaction at `link` resolves through the index to `link` itself,
running `confirm; unconfirm; confirm` with identical parameters ends in
exactly the state the first `confirm` produced. -/
theorem confirm_roundtrip_state (db0 : Database) (link h mtp p : Nat)
    (r0 : TxRecord) (hr0 : db0.records link = some r0)
    (hh : h ≤ 4294967295)
    (hnsf : ∀ inp ∈ r0.inputs, inp.previousOutput.isNull = false →
      ¬ db0.index inp.previousOutput.hash = some link)
    (hc : (confirm db0 link h mtp p).1 = true) :
    (confirm ((unconfirm (confirm db0 link h mtp p).2 link).2) link h mtp p).2 =
      (confirm db0 link h mtp p).2 := by
  have hconf_eq : confirm db0 link h mtp p =
      match spendList db0 (inputPoints r0) h with
      | (false, db2) => (false, db2)
      | (true, db2) => update db2 link h mtp p TransactionState.confirmed := by
    unfold confirm
    rw [hr0]
  rcases hsl1 : spendList db0 (inputPoints r0) h with ⟨b1, dbA⟩
  rw [hsl1] at hconf_eq
  cases b1 with
  | false =>
    rw [hconf_eq] at hc
    simp at hc
  | true =>
    dsimp only at hconf_eq
    have hA := spendList_records_eq (inputPoints r0) h db0 dbA hsl1
    have hTlink : ∀ j, hits db0.index (inputPoints r0) link j = false := by
      intro j
      unfold hits
      rw [List.any_eq_false]
      intro q hq
      obtain ⟨inp, hinp, hqe⟩ := List.mem_map.mp hq
      subst hqe
      by_cases hqn : inp.previousOutput.isNull = true
      · simp [hqn]
      · have hqn2 : inp.previousOutput.isNull = false := by
          revert hqn
          cases inp.previousOutput.isNull <;> simp
        have hnl := hnsf inp hinp hqn2
        simp [hqn2, hnl]
    have hAlink : dbA.records link = some r0 := by
      rw [hA link, hr0]
      simp only [Option.map_some']
      rw [setSpendersFrom_false r0.outputs (hits db0.index (inputPoints r0) link)
        (h % 4294967296) 0 (fun j _ => hTlink j)]
    have hupd1 := update_eq_of_some dbA link h mtp p
      TransactionState.confirmed r0 hAlink
    rw [hupd1] at hconf_eq
    set db1 := updState dbA link h mtp p TransactionState.confirmed with hdb1def
    have hd1link : db1.records link = some
        { r0 with
          height := h % 4294967296, position := p % 65536,
          state := TransactionState.confirmed,
          medianTimePast := mtp % 4294967296 } := by
      rw [hdb1def, updState_records_self, hAlink]
      simp only [Option.map_some']
    have hidxA : dbA.index = db0.index := by
      have h3 := spendList_index (inputPoints r0) h db0
      rw [hsl1] at h3
      exact h3
    have hidx1 : db1.index = db0.index := by
      rw [hdb1def, updState_index]
      exact hidxA
    have hall0 : ∀ q ∈ inputPoints r0, spendOk db0 q h = true := by
      have hf := spendList_fst (inputPoints r0) h db0
      rw [hsl1] at hf
      exact fun q hq => List.all_eq_true.mp hf.symm q hq
    have hOk1 : ∀ q ∈ inputPoints r0, ∀ sh, spendOk db1 q sh = spendOk db0 q sh := by
      intro q hq sh
      by_cases hqn : q.isNull = true
      · rw [spendOk_null db1 q sh hqn, spendOk_null db0 q sh hqn]
      · have hqn2 : q.isNull = false := by
          revert hqn
          cases q.isNull <;> simp
        obtain ⟨inp, hinp, hqe⟩ := List.mem_map.mp hq
        have hnl : ¬ db0.index q.hash = some link := by
          rw [← hqe]
          exact hnsf inp hinp (by rw [hqe]; exact hqn2)
        rw [hdb1def, spendOk_updState dbA link h mtp p
          TransactionState.confirmed q sh (by rw [hidxA]; exact hnl)]
        have h4 := spendOk_spendList (inputPoints r0) h q sh db0
        rw [hsl1] at h4
        exact h4
    have hallns : ∀ q ∈ inputPoints r0, spendOk db1 q notSpent = true := by
      intro q hq
      rw [hOk1 q hq notSpent]
      exact spendOk_mono db0 q h notSpent (by unfold notSpent; omega)
        (hall0 q hq)
    rcases hsl2 : spendList db1 (inputPoints r0) notSpent with ⟨b2, dbB⟩
    have hb2 : b2 = true := by
      have hf := spendList_fst (inputPoints r0) notSpent db1
      rw [hsl2] at hf
      dsimp only at hf
      rw [hf]
      exact List.all_eq_true.mpr hallns
    subst hb2
    have hB := spendList_records_eq (inputPoints r0) notSpent db1 dbB hsl2
    rw [hidx1] at hB
    have hns32 : notSpent % 4294967296 = notSpent := by decide
    rw [hns32] at hB
    have hBlink : dbB.records link = some
        { r0 with
          height := h % 4294967296, position := p % 65536,
          state := TransactionState.confirmed,
          medianTimePast := mtp % 4294967296 } := by
      rw [hB link, hd1link]
      simp only [Option.map_some']
      rw [setSpendersFrom_false _ (hits db0.index (inputPoints r0) link)
        notSpent 0 (fun j _ => hTlink j)]
    have hunc_eq : unconfirm db1 link = (true, updState dbB link
        unverifiedForks noTime unconfirmedPos TransactionState.pooled) := by
      unfold unconfirm
      rw [hd1link]
      dsimp only
      unfold inputPoints
      dsimp only
      have hsl2b := hsl2
      unfold inputPoints at hsl2b
      rw [hsl2b]
      dsimp only
      exact update_eq_of_some dbB link unverifiedForks noTime unconfirmedPos
        TransactionState.pooled _ hBlink
    set db2 := updState dbB link unverifiedForks noTime unconfirmedPos
      TransactionState.pooled with hdb2def
    have hidxB : dbB.index = db0.index := by
      have h3 := spendList_index (inputPoints r0) notSpent db1
      rw [hsl2] at h3
      rw [h3, hidx1]
    have hidx2 : db2.index = db0.index := by
      rw [hdb2def, updState_index]
      exact hidxB
    have hd2link : db2.records link = some
        { r0 with
          height := unverifiedForks % 4294967296,
          position := unconfirmedPos % 65536,
          state := TransactionState.pooled,
          medianTimePast := noTime % 4294967296 } := by
      rw [hdb2def, updState_records_self, hBlink]
      simp only [Option.map_some']
    have hOk2 : ∀ q ∈ inputPoints r0, ∀ sh, spendOk db2 q sh = spendOk db0 q sh := by
      intro q hq sh
      by_cases hqn : q.isNull = true
      · rw [spendOk_null db2 q sh hqn, spendOk_null db0 q sh hqn]
      · have hqn2 : q.isNull = false := by
          revert hqn
          cases q.isNull <;> simp
        obtain ⟨inp, hinp, hqe⟩ := List.mem_map.mp hq
        have hnl : ¬ db0.index q.hash = some link := by
          rw [← hqe]
          exact hnsf inp hinp (by rw [hqe]; exact hqn2)
        rw [hdb2def, spendOk_updState dbB link unverifiedForks noTime
          unconfirmedPos TransactionState.pooled q sh (by rw [hidxB]; exact hnl)]
        have h4 := spendOk_spendList (inputPoints r0) notSpent q sh db1
        rw [hsl2] at h4
        rw [h4]
        exact hOk1 q hq sh
    have hall2 : ∀ q ∈ inputPoints r0, spendOk db2 q h = true := by
      intro q hq
      rw [hOk2 q hq h]
      exact hall0 q hq
    rcases hsl3 : spendList db2 (inputPoints r0) h with ⟨b3, dbC⟩
    have hb3 : b3 = true := by
      have hf := spendList_fst (inputPoints r0) h db2
      rw [hsl3] at hf
      dsimp only at hf
      rw [hf]
      exact List.all_eq_true.mpr hall2
    subst hb3
    have hC := spendList_records_eq (inputPoints r0) h db2 dbC hsl3
    rw [hidx2] at hC
    have hClink : dbC.records link = some
        { r0 with
          height := unverifiedForks % 4294967296,
          position := unconfirmedPos % 65536,
          state := TransactionState.pooled,
          medianTimePast := noTime % 4294967296 } := by
      rw [hC link, hd2link]
      simp only [Option.map_some']
      rw [setSpendersFrom_false _ (hits db0.index (inputPoints r0) link)
        (h % 4294967296) 0 (fun j _ => hTlink j)]
    have hidxC : dbC.index = db0.index := by
      have h3 := spendList_index (inputPoints r0) h db2
      rw [hsl3] at h3
      rw [h3, hidx2]
    have hconf3_eq : confirm db2 link h mtp p = (true, updState dbC link h
        mtp p TransactionState.confirmed) := by
      unfold confirm
      rw [hd2link]
      dsimp only
      unfold inputPoints
      dsimp only
      have hsl3b := hsl3
      unfold inputPoints at hsl3b
      rw [hsl3b]
      dsimp only
      exact update_eq_of_some dbC link h mtp p
        TransactionState.confirmed _ hClink
    rw [hconf_eq]
    dsimp only
    rw [hunc_eq]
    dsimp only
    rw [hconf3_eq]
    dsimp only
    rw [hdb1def]
    apply Database.ext_maps
    · intro off
      by_cases holink : off = link
      · subst holink
        rw [updState_records_self, updState_records_self, hClink, hAlink]
        simp only [Option.map_some']
      · rw [updState_records_ne dbC link h mtp p
          TransactionState.confirmed off holink,
          updState_records_ne dbA link h mtp p
          TransactionState.confirmed off holink,
          hC off, hdb2def,
          updState_records_ne dbB link unverifiedForks noTime unconfirmedPos
          TransactionState.pooled off holink,
          hB off, hdb1def,
          updState_records_ne dbA link h mtp p
          TransactionState.confirmed off holink,
          hA off]
        cases hrec0 : db0.records off with
        | none => rfl
        | some r =>
          simp only [Option.map_some']
          rw [setSpendersFrom_overwrite, setSpendersFrom_overwrite]
    · intro hsh
      rw [updState_index, updState_index, hidxC, hidxA]

/-- Claim C6 counterexample: in `dbSelf` the single input's hash resolves
through the index to the record's own offset (a self-spend the record
store can represent).  The first `confirm` succeeds, but the unconfirm
resets the record to pooled, so the second `confirm`'s spend of the
record's own output is rejected and the sequence ends observably
different from the single `confirm`: `get` at offset 0 disagrees. -/
theorem confirm_roundtrip_counterexample :
    (confirm dbSelf 0 10 7 3).1 = true ∧
    get (confirm ((unconfirm (confirm dbSelf 0 10 7 3).2 0).2) 0 10 7 3).2 0 ≠
      get (confirm dbSelf 0 10 7 3).2 0 := by
  constructor
  · decide
  · decide

/-- Claim C6 (amended): when the first `confirm(link, h, mtp, p)` succeeds
and no input of the transaction at `link` resolves through the hash index
to `link` itself (no self-spend), the sequence `confirm; unconfirm;
confirm` with identical parameters is observationally equivalent — via
`get` on every offset and `get_output` on every point, metadata and fork
height — to the single first `confirm`. -/
theorem confirm_unconfirm_confirm_observational (db0 : Database)
    (link h mtp p : Nat) (r0 : TxRecord) (hr0 : db0.records link = some r0)
    (hh : h ≤ 4294967295)
    (hnsf : ∀ inp ∈ r0.inputs, inp.previousOutput.isNull = false →
      ¬ db0.index inp.previousOutput.hash = some link)
    (hc : (confirm db0 link h mtp p).1 = true) :
    (∀ off,
      get (confirm ((unconfirm (confirm db0 link h mtp p).2 link).2) link h mtp p).2 off =
        get (confirm db0 link h mtp p).2 off) ∧
    (∀ q m0 fh,
      get_output (confirm ((unconfirm (confirm db0 link h mtp p).2 link).2) link h mtp p).2 q m0 fh =
        get_output (confirm db0 link h mtp p).2 q m0 fh) := by
  have hstate := confirm_roundtrip_state db0 link h mtp p r0 hr0 hh hnsf hc
  rw [hstate]
  exact ⟨fun _ => rfl, fun _ _ _ => rfl⟩

/-- Claim C6 witness: the round trip on the two-record database `dbTwo`
(no self-spend) is observationally equivalent to the single confirm. -/
theorem confirm_unconfirm_confirm_observational_witness :
    (∀ off,
      get (confirm ((unconfirm (confirm dbTwo 0 10 7 3).2 0).2) 0 10 7 3).2 off =
        get (confirm dbTwo 0 10 7 3).2 off) ∧
    (∀ q m0 fh,
      get_output (confirm ((unconfirm (confirm dbTwo 0 10 7 3).2 0).2) 0 10 7 3).2 q m0 fh =
        get_output (confirm dbTwo 0 10 7 3).2 q m0 fh) :=
  confirm_unconfirm_confirm_observational dbTwo 0 10 7 3 rSpender
    (by decide) (by decide) (by decide) (by decide)

/-- A little-endian byte block has its nominal width. -/
theorem le_length : ∀ (k v : Nat), (le k v).length = k := by
  intro k
  induction k with
  | zero => intro v; rfl
  | succ k ih =>
    intro v
    show (le (k + 1) v).length = k + 1
    rw [show le (k + 1) v = v % 256 :: le k (v / 256) from rfl]
    simp [ih]

/-- Reading past a prefix reads the suffix. -/
theorem byteAt_append (pre l : List Nat) (i : Nat) :
    byteAt (pre ++ l) (pre.length + i) = byteAt l i := by
  unfold byteAt
  rw [List.getElem?_append_right (by omega)]
  have h : pre.length + i - pre.length = i := by omega
  rw [h]

/-- Reading at the end of a prefix reads the first suffix byte. -/
theorem byteAt_append_head (pre : List Nat) (x : Nat) (l : List Nat) :
    byteAt (pre ++ (x :: l)) pre.length = x := by
  have h := byteAt_append pre (x :: l) 0
  simpa [byteAt] using h

/-- A `k`-byte little-endian read over an encoded block recovers the
value modulo `256^k`. -/
theorem readLEAt_concat : ∀ (k v : Nat) (pre rest : List Nat) (pos : Nat),
    pos = pre.length →
    readLEAt (pre ++ (le k v ++ rest)) pos k = v % 256 ^ k := by
  intro k
  induction k with
  | zero =>
    intro v pre rest pos _
    simp [readLEAt, Nat.mod_one]
  | succ k ih =>
    intro v pre rest pos hpos
    subst hpos
    show byteAt (pre ++ (le (k + 1) v ++ rest)) pre.length +
      256 * readLEAt (pre ++ (le (k + 1) v ++ rest)) (pre.length + 1) k =
        v % 256 ^ (k + 1)
    rw [show le (k + 1) v ++ rest = v % 256 :: (le k (v / 256) ++ rest) from rfl]
    rw [byteAt_append_head]
    rw [List.append_cons]
    rw [ih (v / 256) (pre ++ [v % 256]) rest (pre.length + 1) (by simp)]
    rw [Nat.pow_succ', Nat.mod_mul]

/-- Parsing at the start of an encoded varint recovers the value (modulo
the 8-byte width) and consumes exactly the encoding's length. -/
theorem readVarintAt_enc (pre : List Nat) (n : Nat) (rest : List Nat) :
    readVarintAt (pre ++ (varintEnc n ++ rest)) pre.length =
      (n % 18446744073709551616, (varintEnc n).length) := by
  unfold varintEnc
  by_cases h1 : n < 253
  · rw [if_pos h1]
    unfold readVarintAt
    rw [show ([n] : List Nat) ++ rest = n :: rest from rfl]
    rw [byteAt_append_head]
    rw [if_pos h1]
    rw [Nat.mod_eq_of_lt (by omega)]
    rfl
  · rw [if_neg h1]
    by_cases h2 : n < 65536
    · rw [if_pos h2]
      unfold readVarintAt
      rw [show (253 :: le 2 n) ++ rest = 253 :: (le 2 n ++ rest) from rfl]
      rw [byteAt_append_head]
      rw [if_neg (by omega), if_pos rfl]
      rw [List.append_cons]
      rw [readLEAt_concat 2 n (pre ++ [253]) rest (pre.length + 1) (by simp)]
      have e2 : (256 : Nat) ^ 2 = 65536 := by norm_num
      rw [e2, Nat.mod_eq_of_lt h2, Nat.mod_eq_of_lt (by omega)]
      simp [le_length]
    · rw [if_neg h2]
      by_cases h3 : n < 4294967296
      · rw [if_pos h3]
        unfold readVarintAt
        rw [show (254 :: le 4 n) ++ rest = 254 :: (le 4 n ++ rest) from rfl]
        rw [byteAt_append_head]
        rw [if_neg (by omega), if_neg (by omega), if_pos rfl]
        rw [List.append_cons]
        rw [readLEAt_concat 4 n (pre ++ [254]) rest (pre.length + 1) (by simp)]
        have e4 : (256 : Nat) ^ 4 = 4294967296 := by norm_num
        rw [e4, Nat.mod_eq_of_lt h3, Nat.mod_eq_of_lt (by omega)]
        simp [le_length]
      · rw [if_neg h3]
        unfold readVarintAt
        rw [show (255 :: le 8 n) ++ rest = 255 :: (le 8 n ++ rest) from rfl]
        rw [byteAt_append_head]
        rw [if_neg (by omega), if_neg (by omega), if_neg (by omega)]
        rw [List.append_cons]
        rw [readLEAt_concat 8 n (pre ++ [255]) rest (pre.length + 1) (by simp)]
        have e8 : (256 : Nat) ^ 8 = 18446744073709551616 := by norm_num
        rw [e8]
        simp [le_length]

/-- One iteration of the output-skipping loop. -/
theorem skipOutputsPos_step (data : List Nat) (pos k : Nat) :
    skipOutputsPos data pos (k + 1) =
      skipOutputsPos data
        (pos + spendSize + (readVarintAt data (pos + spendSize)).2 +
          (readVarintAt data (pos + spendSize)).1) k := rfl

/-- The output-skipping loop lands exactly after the serialized outputs
it skipped. -/
theorem skipOutputsPos_spec (outs : List Output) :
    ∀ (idx : Nat) (pre rest : List Nat), idx ≤ outs.length →
      (∀ o ∈ outs, o.script.length < 18446744073709551616) →
      skipOutputsPos (pre ++ ((outs.map outBytes).flatten ++ rest)) pre.length idx =
        pre.length + ((outs.take idx).map outLen).sum := by
  induction outs with
  | nil =>
    intro idx pre rest hidx _
    have h0 : idx = 0 := by simpa using hidx
    subst h0
    simp [skipOutputsPos]
  | cons o os ih =>
    intro idx pre rest hidx hwf
    cases idx with
    | zero => simp [skipOutputsPos]
    | succ idx =>
      rw [skipOutputsPos_step]
      have hdata : pre ++ (((o :: os).map outBytes).flatten ++ rest) =
          (pre ++ (o.indexSpend % 256 :: (le 4 o.spenderHeight ++ le 8 o.value))) ++
            (varintEnc o.script.length ++
              (o.script ++ ((os.map outBytes).flatten ++ rest))) := by
        simp [outBytes, List.append_assoc]
      rw [hdata]
      have hlen13 : (pre ++ (o.indexSpend % 256 ::
          (le 4 o.spenderHeight ++ le 8 o.value))).length = pre.length + spendSize := by
        simp [le_length, spendSize]
      have hrv := readVarintAt_enc
        (pre ++ (o.indexSpend % 256 :: (le 4 o.spenderHeight ++ le 8 o.value)))
        o.script.length (o.script ++ ((os.map outBytes).flatten ++ rest))
      rw [hlen13] at hrv
      rw [hrv]
      have hsmall : o.script.length % 18446744073709551616 = o.script.length :=
        Nat.mod_eq_of_lt (hwf o (by simp))
      rw [hsmall]
      have hdata2 : (pre ++ (o.indexSpend % 256 ::
          (le 4 o.spenderHeight ++ le 8 o.value))) ++
            (varintEnc o.script.length ++
              (o.script ++ ((os.map outBytes).flatten ++ rest))) =
          (pre ++ outBytes o) ++ ((os.map outBytes).flatten ++ rest) := by
        simp [outBytes, List.append_assoc]
      rw [hdata2]
      have hpos2 : pre.length + spendSize + (varintEnc o.script.length).length +
          o.script.length = (pre ++ outBytes o).length := by
        simp [outBytes, le_length, spendSize]
        omega
      rw [hpos2]
      rw [ih idx (pre ++ outBytes o) rest (by simpa using hidx) (fun x hx => hwf x (by simp [hx]))]
      have hsum : ((o :: os).take (idx + 1)).map outLen = outLen o :: (os.take idx).map outLen := by
        simp
      rw [hsum]
      simp [outLen]
      omega

/-- The 4-byte write touches no byte outside its window. -/
theorem write4At_frame (data : List Nat) (pos v i : Nat)
    (h : i < pos ∨ pos + 4 ≤ i) :
    (write4At data pos v)[i]? = data[i]? := by
  unfold write4At
  rw [List.getElem?_set_ne (by omega), List.getElem?_set_ne (by omega),
    List.getElem?_set_ne (by omega), List.getElem?_set_ne (by omega)]

/-- The 4-byte write stores the little-endian bytes of its value. -/
theorem write4At_get (data : List Nat) (pos v : Nat)
    (hlen : pos + 4 ≤ data.length) :
    (write4At data pos v)[pos]? = some (v % 256) ∧
    (write4At data pos v)[pos + 1]? = some (v / 256 % 256) ∧
    (write4At data pos v)[pos + 2]? = some (v / 65536 % 256) ∧
    (write4At data pos v)[pos + 3]? = some (v / 16777216 % 256) := by
  unfold write4At
  refine ⟨?_, ?_, ?_, ?_⟩
  · rw [List.getElem?_set_ne (by omega), List.getElem?_set_ne (by omega),
      List.getElem?_set_ne (by omega)]
    exact List.getElem?_set_eq_of_lt _ (by omega)
  · rw [List.getElem?_set_ne (by omega), List.getElem?_set_ne (by omega)]
    exact List.getElem?_set_eq_of_lt _ (by simp; omega)
  · rw [List.getElem?_set_ne (by omega)]
    exact List.getElem?_set_eq_of_lt _ (by simp; omega)
  · exact List.getElem?_set_eq_of_lt _ (by simp; omega)

/-- The serialized outputs occupy exactly the sum of their lengths. -/
theorem flatten_outBytes_length (outs : List Output) :
    ((outs.map outBytes).flatten).length = (outs.map outLen).sum := by
  rw [List.length_flatten, List.map_map]
  rfl

/-- The spend writer's navigation lands exactly on the spender slot:
the whole writer is the 4-byte write at `slotPos`. -/
theorem spendWrite_eq_write4At (r : TxRecord) (idx sh : Nat)
    (hidx : idx ≤ r.outputs.length)
    (hwf : ∀ o ∈ r.outputs, o.script.length < 18446744073709551616) :
    spendWrite (recordBytes r) idx sh =
      write4At (recordBytes r) (slotPos r idx) (sh % 4294967296) := by
  unfold spendWrite
  have hmeta : recordBytes r =
      (le 4 r.height ++ (le 2 r.position ++
        (stateCode r.state :: le 4 r.medianTimePast))) ++
      (varintEnc r.outputs.length ++ (((r.outputs.map outBytes).flatten) ++
        (varintEnc r.inputs.length ++ ((r.inputs.map inBytes).flatten ++
          (varintEnc r.locktime ++ varintEnc r.version))))) := by
    simp [recordBytes, List.append_assoc]
  have hlen11 : (le 4 r.height ++ (le 2 r.position ++
      (stateCode r.state :: le 4 r.medianTimePast))).length = metadataSize := by
    simp [le_length, metadataSize]
  have hrv := readVarintAt_enc
    (le 4 r.height ++ (le 2 r.position ++ (stateCode r.state :: le 4 r.medianTimePast)))
    r.outputs.length
    (((r.outputs.map outBytes).flatten) ++
      (varintEnc r.inputs.length ++ ((r.inputs.map inBytes).flatten ++
        (varintEnc r.locktime ++ varintEnc r.version))))
  rw [hlen11] at hrv
  rw [hmeta, hrv]
  dsimp only
  have hdata2 :
      (le 4 r.height ++ (le 2 r.position ++
        (stateCode r.state :: le 4 r.medianTimePast))) ++
      (varintEnc r.outputs.length ++ (((r.outputs.map outBytes).flatten) ++
        (varintEnc r.inputs.length ++ ((r.inputs.map inBytes).flatten ++
          (varintEnc r.locktime ++ varintEnc r.version))))) =
      ((le 4 r.height ++ (le 2 r.position ++
        (stateCode r.state :: le 4 r.medianTimePast))) ++
        varintEnc r.outputs.length) ++
      (((r.outputs.map outBytes).flatten) ++
        (varintEnc r.inputs.length ++ ((r.inputs.map inBytes).flatten ++
          (varintEnc r.locktime ++ varintEnc r.version)))) := by
    simp [List.append_assoc]
  rw [hdata2]
  have hlen2 : metadataSize + (varintEnc r.outputs.length).length =
      (((le 4 r.height ++ (le 2 r.position ++
        (stateCode r.state :: le 4 r.medianTimePast))) ++
        varintEnc r.outputs.length)).length := by
    rw [List.length_append, hlen11]
  rw [hlen2]
  rw [skipOutputsPos_spec r.outputs idx
    ((le 4 r.height ++ (le 2 r.position ++
      (stateCode r.state :: le 4 r.medianTimePast))) ++ varintEnc r.outputs.length)
    (varintEnc r.inputs.length ++ ((r.inputs.map inBytes).flatten ++
      (varintEnc r.locktime ++ varintEnc r.version)))
    hidx hwf]
  have hfinal : (((le 4 r.height ++ (le 2 r.position ++
      (stateCode r.state :: le 4 r.medianTimePast))) ++
      varintEnc r.outputs.length)).length +
      ((r.outputs.take idx).map outLen).sum + indexSpendSize = slotPos r idx := by
    rw [← hlen2]
    unfold slotPos
    omega
  rw [hfinal]

/-- The spender slot of an in-range output lies, with its 4 bytes, inside
the record. -/
theorem slotPos_bound (r : TxRecord) (idx : Nat)
    (hidx : idx < r.outputs.length) :
    slotPos r idx + 4 ≤ (recordBytes r).length := by
  have hsplit : r.outputs = r.outputs.take idx ++
      (r.outputs[idx] :: r.outputs.drop (idx + 1)) := by
    rw [← List.drop_eq_getElem_cons hidx, List.take_append_drop]
  have hge : metadataSize + (varintEnc r.outputs.length).length +
      ((r.outputs.map outBytes).flatten).length ≤ (recordBytes r).length := by
    simp [recordBytes, le_length, metadataSize, List.length_append]
    omega
  have hflat := flatten_outBytes_length r.outputs
  have hout13 : outLen (r.outputs[idx]) ≥ 13 := by
    simp [outLen, outBytes, le_length]
    omega
  have hsum_ge : (r.outputs.map outLen).sum ≥
      ((r.outputs.take idx).map outLen).sum + 13 := by
    conv_lhs => rw [hsplit]
    rw [List.map_append, List.sum_append]
    simp only [List.map_cons, List.sum_cons]
    omega
  unfold slotPos
  unfold metadataSize at hge ⊢
  unfold indexSpendSize
  omega

/-- Claim C10: for an in-range output index (the condition under which
`spend` runs its writer), the spend writer modifies exactly the 4-byte
spender-height slot of output `idx` of the record: every byte before the
slot — the 11-byte metadata prefix, the output-count varint, the earlier
outputs and the output's 1-byte index-spend flag — and every byte after
it are unchanged, and the slot receives the little-endian low 32 bits of
the spender height. -/
theorem spend_write_frame (r : TxRecord) (idx sh : Nat)
    (hidx : idx < r.outputs.length)
    (hwf : ∀ o ∈ r.outputs, o.script.length < 18446744073709551616) :
    (∀ i, i < slotPos r idx →
      (spendWrite (recordBytes r) idx sh)[i]? = (recordBytes r)[i]?) ∧
    (∀ i, slotPos r idx + 4 ≤ i →
      (spendWrite (recordBytes r) idx sh)[i]? = (recordBytes r)[i]?) ∧
    (spendWrite (recordBytes r) idx sh)[slotPos r idx]? =
      some (sh % 4294967296 % 256) ∧
    (spendWrite (recordBytes r) idx sh)[slotPos r idx + 1]? =
      some (sh % 4294967296 / 256 % 256) ∧
    (spendWrite (recordBytes r) idx sh)[slotPos r idx + 2]? =
      some (sh % 4294967296 / 65536 % 256) ∧
    (spendWrite (recordBytes r) idx sh)[slotPos r idx + 3]? =
      some (sh % 4294967296 / 16777216 % 256) ∧
    metadataSize + 1 ≤ slotPos r idx := by
  have heq := spendWrite_eq_write4At r idx sh (le_of_lt hidx) hwf
  have hbound := slotPos_bound r idx hidx
  have hget := write4At_get (recordBytes r) (slotPos r idx) (sh % 4294967296) hbound
  rw [heq]
  refine ⟨fun i hi => write4At_frame _ _ _ i (Or.inl hi),
    fun i hi => write4At_frame _ _ _ i (Or.inr hi),
    hget.1, hget.2.1, hget.2.2.1, hget.2.2.2, ?_⟩
  have hvc : 1 ≤ (varintEnc r.outputs.length).length := by
    unfold varintEnc
    split
    · simp
    · split
      · simp
      · split <;> simp
  unfold slotPos metadataSize indexSpendSize
  omega

/-- Claim C10 witness: writing spender height 5 into output 1 of the
two-output record `rTwoOut`. -/
theorem spend_write_frame_witness :
    (∀ i, i < slotPos rTwoOut 1 →
      (spendWrite (recordBytes rTwoOut) 1 5)[i]? = (recordBytes rTwoOut)[i]?) ∧
    (∀ i, slotPos rTwoOut 1 + 4 ≤ i →
      (spendWrite (recordBytes rTwoOut) 1 5)[i]? = (recordBytes rTwoOut)[i]?) ∧
    (spendWrite (recordBytes rTwoOut) 1 5)[slotPos rTwoOut 1]? =
      some (5 % 4294967296 % 256) ∧
    (spendWrite (recordBytes rTwoOut) 1 5)[slotPos rTwoOut 1 + 1]? =
      some (5 % 4294967296 / 256 % 256) ∧
    (spendWrite (recordBytes rTwoOut) 1 5)[slotPos rTwoOut 1 + 2]? =
      some (5 % 4294967296 / 65536 % 256) ∧
    (spendWrite (recordBytes rTwoOut) 1 5)[slotPos rTwoOut 1 + 3]? =
      some (5 % 4294967296 / 16777216 % 256) ∧
    metadataSize + 1 ≤ slotPos rTwoOut 1 :=
  spend_write_frame rTwoOut 1 5 (by decide) (by decide)
